import Mathlib

/-!
Shallow embedding of the klaviyo-mcp resilient request/response pipeline:
the error taxonomy and request executor (`src/api/client.ts`), the response
cache (`src/utils/cache.ts`), and the auto-pagination engine with its
response compactor (`src/utils/pagination.ts`).

Conventions of the embedding:
* JavaScript numbers used as counts/times are modelled as `Int` (all values
  involved are integral); `Date.now()` timestamps are an `Int` parameter.
* `undefined`/`null` is modelled with `Option`; JS string truthiness
  (`s ? a : b`) is modelled by `strTruthy` (present and non-empty).
* JS `Map`/plain objects are modelled as insertion-ordered association
  lists (`List (String × _)`); `Map.set` on an existing key replaces the
  value in place (preserving insertion order), matching JS semantics.
* The only exception a modelled function can raise is the `RangeError`
  thrown by `allData.length = maxResults` for a negative cap; it is
  modelled by `Except Unit` with `.error ()`.
-/

namespace KMCP

instance {ε α : Type} [DecidableEq ε] [DecidableEq α] : DecidableEq (Except ε α) :=
  fun a b =>
    match a, b with
    | .error e1, .error e2 =>
      if h : e1 = e2 then .isTrue (by rw [h])
      else .isFalse (by intro hc; injection hc; exact h (by assumption))
    | .error _, .ok _ => .isFalse (fun hc => Except.noConfusion hc)
    | .ok _, .error _ => .isFalse (fun hc => Except.noConfusion hc)
    | .ok a1, .ok a2 =>
      if h : a1 = a2 then .isTrue (by rw [h])
      else .isFalse (by intro hc; injection hc; exact h (by assumption))

/-- JS string truthiness for an optional string: present and non-empty. -/
def strTruthy : Option String → Bool
  | some s => s ≠ ""
  | none => false

/-- Value of a run of leading decimal digits, stopping at the first
non-digit (the accumulator carries the value read so far). -/
def digitsVal : List Char → Int → Int
  | [], acc => acc
  | c :: t, acc => if c.isDigit then digitsVal t (acc * 10 + (c.toNat - 48)) else acc

/-- JS `parseInt(s, 10)`: skip leading whitespace, optional sign, then a
non-empty run of digits; `NaN` (no digits) is modelled as `none`. -/
def parseIntJS (s : String) : Option Int :=
  let l := s.toList.dropWhile (·.isWhitespace)
  match l with
  | '-' :: t => match t with
    | c :: _ => if c.isDigit then some (-(digitsVal t 0)) else none
    | [] => none
  | '+' :: t => match t with
    | c :: _ => if c.isDigit then some (digitsVal t 0) else none
    | [] => none
  | c :: _ => if c.isDigit then some (digitsVal l 0) else none
  | [] => none

/-- One structured JSON:API error object from an error response body
(`JsonApiErrorResponse['errors']` elements, as used by `client.ts`). -/
structure ApiError where
  detail : Option String
  title : Option String
  deriving Repr, DecidableEq

/-- The error taxonomy of `client.ts`: `KlaviyoAuthError`,
`KlaviyoNotFoundError`, `KlaviyoRateLimitError` (with optional
`retryAfter`), `KlaviyoValidationError` (with the structured error list),
and the base `KlaviyoError` (with optional status code and error list). -/
inductive KlaviyoErr where
  | auth (message : String)
  | notFound (message : String)
  | rateLimit (message : String) (retryAfter : Option Int)
  | validation (message : String) (errors : Option (List ApiError))
  | generic (message : String) (statusCode : Option Nat) (errors : Option (List ApiError))
  deriving Repr, DecidableEq

/-- `e.detail || e.title || 'Unknown error'` from `handleErrorResponse`. -/
def errorDisplayText (e : ApiError) : String :=
  if strTruthy e.detail then e.detail.getD ""
  else if strTruthy e.title then e.title.getD ""
  else "Unknown error"

/-- The display message computed by `handleErrorResponse`: the joined
per-error texts when the body parsed and carried a non-empty `errors`
list, else the synthesized `API error: <status> <statusText>` fallback.
`body` is `errorData?.errors`: `none` when the body failed to parse or
carried no `errors` field. -/
def errorMessage (status : Nat) (statusText : String)
    (body : Option (List ApiError)) : String :=
  match body with
  | some errs =>
    if errs.length ≠ 0 then String.intercalate "; " (errs.map errorDisplayText)
    else "API error: " ++ toString status ++ " " ++ statusText
  | none => "API error: " ++ toString status ++ " " ++ statusText

/-- `KlaviyoClient.handleErrorResponse` (`client.ts` lines 135–166): the
status switch producing exactly one error variant. `retryAfterHeader` is
`response.headers.get('Retry-After')`; the code computes
`retryAfter ? parseInt(retryAfter, 10) : undefined`, with `NaN` modelled
as `none`. -/
def handleErrorResponse (status : Nat) (statusText : String)
    (retryAfterHeader : Option String) (body : Option (List ApiError)) : KlaviyoErr :=
  let msg := errorMessage status statusText body
  if status = 401 ∨ status = 403 then .auth msg
  else if status = 404 then .notFound msg
  else if status = 429 then
    .rateLimit msg
      (match retryAfterHeader with
       | some s => if s ≠ "" then parseIntJS s else none
       | none => none)
  else if status = 400 ∨ status = 422 then .validation msg body
  else .generic msg (some status) body

/-- The five kinds of the error taxonomy. -/
inductive ErrKind where
  | auth | notFound | rateLimit | validation | generic
  deriving Repr, DecidableEq

/-- The kind of a classified error. -/
def KlaviyoErr.kind : KlaviyoErr → ErrKind
  | .auth _ => .auth
  | .notFound _ => .notFound
  | .rateLimit _ _ => .rateLimit
  | .validation _ _ => .validation
  | .generic _ _ _ => .generic

/-- The `retryAfter` payload when the error is a `RateLimit`, else `none`. -/
def KlaviyoErr.retryAfterOf : KlaviyoErr → Option Int
  | .rateLimit _ r => r
  | _ => none

/-- The raw status code carried by a `Generic` error, else `none`. -/
def KlaviyoErr.genericStatusOf : KlaviyoErr → Option Nat
  | .generic _ st _ => st
  | _ => none

/-- The structured error list carried by a `Validation` error
(wrapped in an outer `some` to distinguish "not a Validation"). -/
def KlaviyoErr.validationErrorsOf : KlaviyoErr → Option (Option (List ApiError))
  | .validation _ e => some e
  | _ => none

/-- Modelled from the spec (§4.1 contract): the status → variant-kind
partition the Error Taxonomy is required to implement: 401/403 → Auth;
404 → NotFound; 429 → RateLimit; 400/422 → Validation; anything else →
Generic. Used as the refinement target for the classifier. -/
def specKindOf (status : Nat) : ErrKind :=
  if status = 401 ∨ status = 403 then .auth
  else if status = 404 then .notFound
  else if status = 429 then .rateLimit
  else if status = 400 ∨ status = 422 then .validation
  else .generic

/-- Outcome of the underlying `fetch` call inside `KlaviyoClient.request`:
a response (with status, status text, `Retry-After` header, parsed error
body and decoded payload), the `AbortError` raised when the timeout
controller fires, or any other transport failure (DNS, connection
refused, …) with its message. -/
inductive FetchOutcome (P : Type) where
  | response (status : Nat) (statusText : String) (retryAfterHeader : Option String)
      (body : Option (List ApiError)) (payload : P)
  | abortErr
  | transportErr (message : String)
  deriving Repr, DecidableEq

/-- `KlaviyoClient.request` (`client.ts` lines 95–132), at the level of the
fetch outcome: 2xx with 204 yields the empty payload, other 2xx yields the
decoded payload, non-2xx is classified by `handleErrorResponse` (the thrown
`KlaviyoError` is re-thrown unchanged by the catch block), `AbortError`
becomes `KlaviyoError('Request timeout', 408)`, and any other failure
becomes `KlaviyoError('Request failed: <msg>')` with no status code. -/
def request {P : Type} (emptyPayload : P) : FetchOutcome P → Except KlaviyoErr P
  | .response st stx hdr body payload =>
    if 200 ≤ st ∧ st ≤ 299 then
      if st = 204 then .ok emptyPayload else .ok payload
    else .error (handleErrorResponse st stx hdr body)
  | .abortErr => .error (.generic "Request timeout" (some 408) none)
  | .transportErr m => .error (.generic ("Request failed: " ++ m) none none)

/-- The client's timeout resolution: `options?.timeout ?? 30000`. -/
def clientTimeout (t : Option Nat) : Nat := t.getD 30000

/-! ### Response cache (`src/utils/cache.ts`) -/

/-- A cache entry (`CacheEntry<T>` in `cache.ts`). -/
structure CacheEntry (V : Type) where
  value : V
  type : String
  createdAt : Int
  lastAccessed : Int
  expiresAt : Int
  deriving Repr, DecidableEq

/-- The cache `Map`, as an insertion-ordered association list. -/
abbrev Cache (V : Type) := List (String × CacheEntry V)

/-- `Map.get`: the entry stored under `k` (first matching key). -/
def mapGet {V : Type} : Cache V → String → Option (CacheEntry V)
  | [], _ => none
  | p :: t, k => if p.1 = k then some p.2 else mapGet t k

/-- `Map.set`: replace in place if the key is present (JS `Map` keeps the
original insertion position), otherwise append at the end. -/
def mapSet {V : Type} (c : Cache V) (k : String) (e : CacheEntry V) : Cache V :=
  if (mapGet c k).isSome then
    c.map (fun p => if p.1 = k then (k, e) else p)
  else c ++ [(k, e)]

/-- `Map.delete`: remove the entry with key `k`. -/
def mapDelete {V : Type} (c : Cache V) (k : String) : Cache V :=
  c.filter (fun p => p.1 ≠ k)

/-- The tunable part of `CACHE_CONFIG` (`config.ts`): `enabled` comes from
the environment, `maxSize` is 100 in the source configuration. -/
structure CacheConfig where
  enabled : Bool
  maxSize : Nat
  deriving Repr, DecidableEq

/-- `String.prototype.includes`: substring containment test. -/
def containsSub (s pat : String) : Bool := (s.splitOn pat).length ≠ 1

/-- `getCacheType` (`cache.ts`): infer the resource-type tag from
substrings of the key. -/
def getCacheType (key : String) : String :=
  if containsSub key "/metrics" then "metrics"
  else if containsSub key "/campaigns" then "campaigns"
  else if containsSub key "/flows" then "flows"
  else if containsSub key "/templates" then "templates"
  else if containsSub key "/lists" then "lists"
  else if containsSub key "/segments" then "segments"
  else if containsSub key "/profiles" then "profiles"
  else if containsSub key "/tags" then "tags"
  else "default"

/-- `CACHE_CONFIG.ttlSeconds` (`config.ts`): the fixed per-type TTL table. -/
def ttlSeconds (t : String) : Int :=
  if t = "metrics" then 3600
  else if t = "campaigns" then 1800
  else if t = "flows" then 1800
  else if t = "templates" then 3600
  else if t = "lists" then 900
  else if t = "segments" then 900
  else if t = "profiles" then 300
  else if t = "tags" then 3600
  else 600

/-- `getTtlMs` (`cache.ts`). -/
def getTtlMs (t : String) : Int := ttlSeconds t * 1000

/-- `hasCache` (`cache.ts` lines 67–78): miss when disabled or absent;
an entry strictly past its expiry (`Date.now() > entry.expiresAt`) is
deleted as a side effect and reported as a miss. Returns the answer and
the possibly-updated cache. -/
def hasCache {V : Type} (cfg : CacheConfig) (c : Cache V) (key : String)
    (now : Int) : Bool × Cache V :=
  if cfg.enabled = false then (false, c)
  else
    match mapGet c key with
    | none => (false, c)
    | some e => if now > e.expiresAt then (false, mapDelete c key) else (true, c)

/-- `getCache` (`cache.ts` lines 83–91): consult `hasCache`; on a hit,
update the entry's `lastAccessed` to `Date.now()` and return its value. -/
def getCache {V : Type} (cfg : CacheConfig) (c : Cache V) (key : String)
    (now : Int) : Option V × Cache V :=
  let hc := hasCache cfg c key now
  if hc.1 = false then (none, hc.2)
  else
    match mapGet hc.2 key with
    | some e => (some e.value, mapSet hc.2 key { e with lastAccessed := now })
    | none => (none, hc.2)

/-- Entry comparison used by `evictOldestItems`'s
`sort((a, b) => a[1].lastAccessed - b[1].lastAccessed)`. -/
def laLE {V : Type} (a b : String × CacheEntry V) : Prop :=
  a.2.lastAccessed ≤ b.2.lastAccessed

instance {V : Type} : DecidableRel (laLE (V := V)) :=
  fun a b => inferInstanceAs (Decidable (a.2.lastAccessed ≤ b.2.lastAccessed))

instance {V : Type} : IsTotal (String × CacheEntry V) laLE :=
  ⟨fun a b => Int.le_total a.2.lastAccessed b.2.lastAccessed⟩

instance {V : Type} : IsTrans (String × CacheEntry V) laLE :=
  ⟨fun _ _ _ hab hbc => le_trans hab hbc⟩

/-- The number of entries `evictOldestItems` removes:
`Math.max(1, Math.ceil(entries.length * 0.2))`; for the entry counts the
cache can reach, `Math.ceil(n * 0.2) = ⌈n/5⌉ = (n + 4) / 5`. -/
def evictCount (n : Nat) : Nat := max 1 ((n + 4) / 5)

/-- The keys `evictOldestItems` deletes: those of the first `evictCount`
entries of a snapshot of the map sorted by `lastAccessed` ascending
(JS `sort` is stable; modelled by insertion sort). -/
def evictVictims {V : Type} (c : Cache V) : List String :=
  ((List.insertionSort laLE c).take (evictCount c.length)).map Prod.fst

/-- `evictOldestItems` (`cache.ts` lines 124–134): delete the oldest ~20%
of entries (by `lastAccessed`) from the map. -/
def evictOldestItems {V : Type} (c : Cache V) : Cache V :=
  c.filter (fun p => !((evictVictims c).contains p.1))

/-- `setCache` (`cache.ts` lines 96–119): no-op when the cache is disabled
or the value is `null`/`undefined`; evict the oldest entries when the map
has reached `maxSize`; then insert the entry with the type-derived TTL. -/
def setCache {V : Type} (cfg : CacheConfig) (c : Cache V) (key : String)
    (value : Option V) (now : Int) : Bool × Cache V :=
  if cfg.enabled = false then (false, c)
  else
    match value with
    | none => (false, c)
    | some v =>
      let t := getCacheType key
      let ttlMs := getTtlMs t
      let c1 := if cfg.maxSize ≤ c.length then evictOldestItems c else c
      (true, mapSet c1 key
        { value := v, type := t, createdAt := now, lastAccessed := now,
          expiresAt := now + ttlMs })

/-- A whole sequence of insertions, applied to the initially empty cache
(latest operation first in the list). -/
def applySets {V : Type} (cfg : CacheConfig) : List (String × Option V × Int) → Cache V
  | [] => []
  | (k, v, t) :: ops => (setCache cfg (applySets cfg ops) k v t).2

/-! ### Auto-pagination engine (`src/utils/pagination.ts`)

The page source is modelled as a list of pages: the cursor extracted from
page `i`'s well-formed `next` link leads to page `i + 1` (Klaviyo cursors
chain forward), so `fetchFn()` returns the head and a successful cursor
extraction advances to the tail. A cursor pointing past the end of the
list behaves as an empty terminal page. -/

/-- The `next` link of a page: a parseable URL carrying a `page[cursor]`
parameter, a parseable URL without one, or an unparseable string. -/
inductive NextLink where
  | validWithCursor
  | validNoCursor
  | malformed
  deriving Repr, DecidableEq

/-- `extractCursor` (`pagination.ts` lines 48–55): whether a cursor is
obtained from the link — `new URL` throws on a malformed link (caught,
yielding `null`), and `searchParams.get('page[cursor]')` is `null` when
the parameter is absent. -/
def extractCursor : NextLink → Bool
  | .validWithCursor => true
  | .validNoCursor => false
  | .malformed => false

/-- A JSON:API resource item as used by `compactItem`: optional `id`,
`type`, and an `attributes` record (insertion-ordered, unique keys). -/
structure Item (V : Type) where
  id : Option String
  type : Option String
  attributes : Option (List (String × V))
  deriving Repr, DecidableEq

/-- Record lookup on an attributes object (first matching key). -/
def rlookup {V : Type} : List (String × V) → String → Option V
  | [], _ => none
  | p :: t, k => if p.1 = k then some p.2 else rlookup t k

/-- JS object property assignment: replace the value in place when the key
exists (keeping its position), else append. -/
def rset {V : Type} (r : List (String × V)) (k : String) (v : V) : List (String × V) :=
  if (rlookup r k).isSome then
    r.map (fun p => if p.1 = k then (k, v) else p)
  else r ++ [(k, v)]

/-- The `compactedAttributes` loop of `compactItem`: for each allow-listed
field present in the original attributes, copy it into a fresh object. -/
def compactAttrs {V : Type} (attrs : List (String × V)) (fields : List String) :
    List (String × V) :=
  fields.foldl
    (fun acc f =>
      match rlookup attrs f with
      | some v => rset acc f v
      | none => acc)
    []

/-- `compactItem` (`pagination.ts` lines 60–77): an item without an
`attributes` object passes through; otherwise a new item is built by
spreading the original and replacing `attributes` with the projection. -/
def compactItem {V : Type} (item : Item V) (fields : List String) : Item V :=
  match item.attributes with
  | none => item
  | some attrs => { item with attributes := some (compactAttrs attrs fields) }

/-- One page of results (`PaginatedResponse`): data items, the optional
`next` link, and side-loaded `included` objects (`ι`). -/
structure Page (V ι : Type) where
  data : List (Item V)
  next : Option NextLink
  included : List ι
  deriving Repr, DecidableEq

/-- `PaginationOptions` (`pagination.ts`): all fields optional, `none`
meaning `undefined`. `max_results` is an `Int` because callers can pass
zero or negative values. -/
structure PaginationOptions where
  fetch_all : Option Bool := none
  max_results : Option Int := none
  compact : Option Bool := none
  compactFields : Option (List String) := none
  detailHint : Option String := none
  deriving Repr, DecidableEq

/-- `AutoPaginatedResponse`: the result envelope (its `meta` flattened). -/
structure AutoPaginatedResponse (V ι : Type) where
  data : List (Item V)
  included : Option (List ι)
  total : Nat
  fetched : Nat
  truncated : Bool
  compact : Bool
  hint : Option String
  deriving Repr, DecidableEq

/-- `DEFAULT_MAX_RESULTS` (`pagination.ts`). -/
def DEFAULT_MAX_RESULTS : Int := 500

/-- `options.fetch_all !== false` (default true). -/
def resolveFetchAll (opts : PaginationOptions) : Bool := opts.fetch_all ≠ some false

/-- `options.max_results ?? DEFAULT_MAX_RESULTS` — `??` only replaces
`null`/`undefined`, so zero and negative caps pass through unchanged. -/
def resolveMaxResults (opts : PaginationOptions) : Int :=
  opts.max_results.getD DEFAULT_MAX_RESULTS

/-- `options.compact !== false` (default true). -/
def resolveCompact (opts : PaginationOptions) : Bool := opts.compact ≠ some false

/-- `options.compactFields ?? []`. -/
def resolveCompactFields (opts : PaginationOptions) : List String :=
  opts.compactFields.getD []

/-- The result-assembly tail of `fetchAllPages` (both exits): apply compact
mode to the accumulated data, attach `included` only in non-compact mode,
fill `meta`, and attach `_hint` when compactness and a truthy hint allow. -/
def mkResult {V ι : Type} (d : List (Item V)) (inc : List ι) (truncated : Bool)
    (compact : Bool) (fields : List String) (hint : Option String) :
    AutoPaginatedResponse V ι :=
  { data := if compact = true ∧ fields.length ≠ 0 then d.map (compactItem · fields) else d
    included := if compact = false ∧ inc.length ≠ 0 then some inc else none
    total := d.length
    fetched := d.length
    truncated := truncated
    compact := decide (compact = true ∧ fields.length ≠ 0)
    hint := if compact = true ∧ strTruthy hint = true then hint else none }

/-- The `while (cursor && allData.length < maxResults)` loop of
`fetchAllPages`, entered with a cursor in hand that points at the head of
`rest`. Returns the accumulated data, the accumulated `included` objects,
and whether a cursor was still in hand on exit. -/
def fetchLoop {V ι : Type} (maxResults : Int) :
    List (Page V ι) → List (Item V) → List ι → List (Item V) × List ι × Bool
  | rest, d, inc =>
    if (d.length : Int) < maxResults then
      match rest with
      | [] => (d, inc, false)
      | p :: rest' =>
        let d' := d ++ p.data
        let inc' := inc ++ p.included
        match p.next with
        | some l =>
          if extractCursor l then fetchLoop maxResults rest' d' inc'
          else (d', inc', false)
        | none => (d', inc', false)
    else (d, inc, true)

/-- The empty page returned for a fetch past the end of the page list. -/
def emptyPage {V ι : Type} : Page V ι := { data := [], next := none, included := [] }

/-- `fetchAllPages` (`pagination.ts` lines 86–180). The `.error ()` case is
the `RangeError` thrown by `allData.length = maxResults` when the cap is
negative (reachable only on the multi-page path). -/
def fetchAllPages {V ι : Type} (pages : List (Page V ι)) (opts : PaginationOptions) :
    Except Unit (AutoPaginatedResponse V ι) :=
  let fetchAll := resolveFetchAll opts
  let maxResults := resolveMaxResults opts
  let compact := resolveCompact opts
  let compactFields := resolveCompactFields opts
  let firstPage := pages.headD emptyPage
  match firstPage.next with
  | none => .ok (mkResult firstPage.data firstPage.included false compact compactFields opts.detailHint)
  | some link =>
    if fetchAll = false then
      .ok (mkResult firstPage.data firstPage.included false compact compactFields opts.detailHint)
    else
      let st :=
        if extractCursor link then fetchLoop maxResults pages.tail firstPage.data firstPage.included
        else (firstPage.data, firstPage.included, false)
      if (st.1.length : Int) > maxResults then
        if maxResults < 0 then .error ()
        else .ok (mkResult (st.1.take maxResults.toNat) st.2.1 true compact compactFields opts.detailHint)
      else .ok (mkResult st.1 st.2.1 st.2.2 compact compactFields opts.detailHint)

/-- All items of a page sequence, in page order. -/
def pagesData {V ι : Type} (pages : List (Page V ι)) : List (Item V) :=
  (pages.map Page.data).flatten

/-- All side-loaded objects of a page sequence, in page order. -/
def pagesIncluded {V ι : Type} (pages : List (Page V ι)) : List ι :=
  (pages.map Page.included).flatten

/-- The number of items in a page sequence. -/
def countItems {V ι : Type} (pages : List (Page V ι)) : Nat :=
  (pagesData pages).length

/-- A well-formed cursor chain: every page except the last carries a
parseable `next` link with a cursor (leading to the following page), and
the last page carries no `next` link. -/
def chainB {V ι : Type} : List (Page V ι) → Bool
  | [] => true
  | [p] => p.next = none
  | p :: q :: t => p.next = some .validWithCursor && chainB (q :: t)

/-- Attribute lookup through an item's optional `attributes` object. -/
def attrLookup {V : Type} (item : Item V) (f : String) : Option V :=
  item.attributes.bind (fun a => rlookup a f)

/-! ### Concrete fixtures used by witnesses and counterexamples -/

/-- A sample cache configuration matching `CACHE_CONFIG` with caching on. -/
def cfgSample : CacheConfig := { enabled := true, maxSize := 100 }

/-- A sample cache entry expiring at time 100. -/
def entrySample : CacheEntry Nat :=
  { value := 5, type := "default", createdAt := 0, lastAccessed := 0, expiresAt := 100 }

/-- A sample one-entry cache. -/
def cacheSample : Cache Nat := [("k", entrySample)]

/-- A sample item with attributes `{a:1, b:2, c:3}`. -/
def itemFix : Item Nat :=
  { id := some "p1", type := some "profile", attributes := some [("a", 1), ("b", 2), ("c", 3)] }

/-- A numbered sample item. -/
def mkItem (n : Nat) : Item Nat :=
  { id := some (toString n), type := some "x", attributes := some [("n", n)] }

/-- A sample page with the given item numbers and next link. -/
def mkPage (ns : List Nat) (nx : Option NextLink) : Page Nat Nat :=
  { data := ns.map mkItem, next := nx, included := [] }

/-- The spec's mock 3-page sequence with 10/10/5 items and cursors
page1 → page2 → page3 → none. -/
def mock3 : List (Page Nat Nat) :=
  [mkPage (List.range 10) (some .validWithCursor),
   mkPage (List.range 10) (some .validWithCursor),
   mkPage (List.range 5) none]

/-- A 2-page sequence (1 item + 1 item). -/
def pagesTwo : List (Page Nat Nat) :=
  [mkPage [1] (some .validWithCursor), mkPage [2] none]

/-- A sequence whose second (last) page is empty: the running count hits
the cap exactly while a cursor is still in hand. -/
def trailEmpty : List (Page Nat Nat) :=
  [mkPage [1, 2, 3] (some .validWithCursor), mkPage [] none]

/-- A sequence whose second page carries a malformed next link. -/
def mockBad : List (Page Nat Nat) :=
  [mkPage [1, 2, 3] (some .validWithCursor),
   mkPage [4, 5] (some .malformed),
   mkPage [9] none]

/-- A single page carrying side-loaded objects. -/
def pageInc : Page Nat Nat := { data := [itemFix], next := none, included := [7, 8] }

/-! ### C1: the error-taxonomy partition -/

lemma parseIntJS_empty : parseIntJS "" = none := by decide

/-- C1: for every HTTP status code and optional parsed error body (and
`Retry-After` header), `handleErrorResponse` produces exactly one error
variant, and the variant kind is exactly the spec's partition
(401/403 → Auth, 404 → NotFound, 429 → RateLimit, 400/422 → Validation,
everything else → Generic — total, no overlap, no gaps); the `RateLimit`
variant carries the integer parse of the `Retry-After` header when one is
present (absent otherwise, with an unparseable header yielding no
integer), the `Validation` variant carries the structured error list from
the body, and the `Generic` variant carries the raw status code. -/
theorem C1_error_taxonomy_partition (st : Nat) (stx : String) (hdr : Option String)
    (body : Option (List ApiError)) :
    (handleErrorResponse st stx hdr body).kind = specKindOf st ∧
    (handleErrorResponse st stx hdr body).retryAfterOf =
      (if st = 429 then hdr.bind parseIntJS else none) ∧
    (handleErrorResponse st stx hdr body).validationErrorsOf =
      (if st = 400 ∨ st = 422 then some body else none) ∧
    (handleErrorResponse st stx hdr body).genericStatusOf =
      (if specKindOf st = .generic then some st else none) := by
  have hbind : (match hdr with
      | some s => if s ≠ "" then parseIntJS s else none
      | none => none) = hdr.bind parseIntJS := by
    cases hdr with
    | none => rfl
    | some s =>
      by_cases hs : s = ""
      · subst hs; simp [parseIntJS_empty]
      · simp [hs]
  refine ⟨?_, ?_, ?_, ?_⟩ <;>
    simp only [handleErrorResponse, specKindOf] <;>
    split_ifs <;>
    (try simp_all [KlaviyoErr.kind, KlaviyoErr.retryAfterOf,
      KlaviyoErr.validationErrorsOf, KlaviyoErr.genericStatusOf]) <;>
    omega

/-! ### C6: timeout and transport failures in the request executor -/

/-- C6: in `KlaviyoClient.request`, a fired timeout (the abort controller's
`AbortError`) is converted into a `Generic` error with message
`Request timeout` carrying the sentinel status 408 — the transport's own
abort error never escapes, since the result type only carries taxonomy
errors — and every raw network/transport failure is converted into a
`Generic` error carrying no status code; the configured timeout defaults
to 30000 ms. -/
theorem C6_timeout_and_transport_errors (emptyP : Nat) (m : String) (t : Nat) :
    request emptyP (FetchOutcome.abortErr (P := Nat)) =
      .error (.generic "Request timeout" (some 408) none) ∧
    request emptyP (FetchOutcome.transportErr m) =
      .error (.generic ("Request failed: " ++ m) none none) ∧
    clientTimeout none = 30000 ∧ clientTimeout (some t) = t :=
  ⟨rfl, rfl, rfl, rfl⟩

/-! ### C3: cache lookup and expiry -/

lemma mapSet_cons_ne {V : Type} (p : String × CacheEntry V) (t : Cache V)
    (k : String) (e : CacheEntry V) (hk : p.1 ≠ k) :
    mapSet (p :: t) k e = p :: mapSet t k e := by
  by_cases hs : (mapGet t k).isSome
  · simp [mapSet, mapGet, hk, hs]
  · simp [mapSet, mapGet, hk, hs]

lemma mapGet_mapSet_self {V : Type} (c : Cache V) (k : String) (e : CacheEntry V) :
    mapGet (mapSet c k e) k = some e := by
  induction c with
  | nil => simp [mapSet, mapGet]
  | cons p t ih =>
    by_cases hk : p.1 = k
    · have hsome : (mapGet (p :: t) k).isSome := by simp [mapGet, hk]
      simp [mapSet, hsome, mapGet, hk]
    · rw [mapSet_cons_ne p t k e hk]
      simpa [mapGet, hk] using ih

lemma mapGet_mapDelete_self {V : Type} (c : Cache V) (k : String) :
    mapGet (mapDelete c k) k = none := by
  induction c with
  | nil => rfl
  | cons p t ih =>
    by_cases hk : p.1 = k
    · simpa [mapDelete, hk] using ih
    · simpa [mapDelete, mapGet, hk] using ih

/-- C3 counterexample: an entry whose `expires_at` is 100, looked up at
time 100 (not strictly earlier), is still returned — refuting "returns the
stored value only if the current time is strictly less than the entry's
expires_at". -/
theorem C3_counterexample :
    (getCache cfgSample cacheSample "k" 100).1 = some 5 ∧ ¬ ((100 : Int) < 100) :=
  ⟨by decide, by omega⟩

/-- C3 (amended): the cache lookup returns the stored value only if the
lookup time is at most the entry's `expires_at` (the miss condition is
`now > expires_at`, so at exactly `expires_at` the entry is still served);
a lookup strictly past expiry deletes the entry as a side effect and
reports a miss; and every hit updates the entry's `last_accessed_at` to
the lookup time. -/
theorem C3_cache_lookup_expiry {V : Type} (cfg : CacheConfig) (c : Cache V)
    (key : String) (now : Int) :
    ((getCache cfg c key now).1.isSome = true →
      ∃ e, mapGet c key = some e ∧ now ≤ e.expiresAt ∧
        (getCache cfg c key now).1 = some e.value ∧
        mapGet (getCache cfg c key now).2 key = some { e with lastAccessed := now }) ∧
    (∀ e, mapGet c key = some e → e.expiresAt < now → cfg.enabled = true →
        (getCache cfg c key now).1 = none ∧
        mapGet (getCache cfg c key now).2 key = none) := by
  by_cases hen : cfg.enabled = true
  · cases hme : mapGet c key with
    | none =>
      refine ⟨fun hs => absurd hs (by simp [getCache, hasCache, hen, hme]), ?_⟩
      intro e hme2
      exact absurd hme2 (by simp)
    | some e =>
      by_cases hex : now > e.expiresAt
      · have hres : getCache cfg c key now = (none, mapDelete c key) := by
          simp [getCache, hasCache, hen, hme, hex]
        refine ⟨fun hs => absurd hs (by rw [hres]; simp), ?_⟩
        intro e2 hme2 _ _
        rw [hres]
        exact ⟨rfl, mapGet_mapDelete_self c key⟩
      · have hle : now ≤ e.expiresAt := by omega
        have hres : getCache cfg c key now =
            (some e.value, mapSet c key { e with lastAccessed := now }) := by
          simp [getCache, hasCache, hen, hme, hex]
        constructor
        · intro _
          refine ⟨e, rfl, hle, by rw [hres], ?_⟩
          rw [hres]
          exact mapGet_mapSet_self c key _
        · intro e2 hme2 hlt _
          injection hme2 with he2
          subst he2
          omega
  · have hf : cfg.enabled = false := by
      revert hen; cases cfg.enabled <;> simp
    have hres : getCache cfg c key now = (none, c) := by
      simp [getCache, hasCache, hf]
    refine ⟨fun hs => absurd hs (by rw [hres]; simp), ?_⟩
    intro e _ _ htrue
    exact absurd htrue hen

/-- C3 witness: at time 101 (strictly past expiry 100) the lookup misses
and deletes the stale entry; at time 50 the lookup hits and updates
`last_accessed_at` to 50. -/
theorem C3_cache_lookup_expiry_witness :
    ((getCache cfgSample cacheSample "k" 101).1 = none ∧
      mapGet (getCache cfgSample cacheSample "k" 101).2 "k" = none) ∧
    (∃ e, mapGet cacheSample "k" = some e ∧ (50 : Int) ≤ e.expiresAt ∧
      (getCache cfgSample cacheSample "k" 50).1 = some e.value ∧
      mapGet (getCache cfgSample cacheSample "k" 50).2 "k" =
        some { e with lastAccessed := 50 }) :=
  ⟨(C3_cache_lookup_expiry cfgSample cacheSample "k" 101).2 entrySample
      (by decide) (by decide) (by decide),
   (C3_cache_lookup_expiry cfgSample cacheSample "k" 50).1 (by decide)⟩

/-! ### C4: cache insertion and LRU eviction -/

lemma length_mapSet_le {V : Type} (c : Cache V) (k : String) (e : CacheEntry V) :
    (mapSet c k e).length ≤ c.length + 1 := by
  unfold mapSet
  split
  · simp
  · simp

lemma eq_of_fst_eq_of_nodup {V : Type} :
    ∀ {c : Cache V}, (c.map Prod.fst).Nodup →
      ∀ {a b : String × CacheEntry V}, a ∈ c → b ∈ c → a.1 = b.1 → a = b := by
  intro c
  induction c with
  | nil => intro _ a b ha; cases ha
  | cons p t ih =>
    intro hnd a b ha hb hk
    rw [List.map_cons, List.nodup_cons] at hnd
    rcases List.mem_cons.mp ha with ha1 | ha1
    · rcases List.mem_cons.mp hb with hb1 | hb1
      · rw [ha1, hb1]
      · exfalso
        apply hnd.1
        have hpb : p.1 = b.1 := by rw [← ha1]; exact hk
        rw [hpb]
        exact List.mem_map_of_mem Prod.fst hb1
    · rcases List.mem_cons.mp hb with hb1 | hb1
      · exfalso
        apply hnd.1
        have hpa : p.1 = a.1 := by rw [← hb1]; exact hk.symm
        rw [hpa]
        exact List.mem_map_of_mem Prod.fst ha1
      · exact ih hnd.2 ha1 hb1 hk

lemma evictOldestItems_length_lt {V : Type} (c : Cache V) (hne : c ≠ []) :
    (evictOldestItems c).length < c.length := by
  have hperm : List.Perm (List.insertionSort laLE c) c := List.perm_insertionSort laLE c
  obtain ⟨p, s', hs⟩ : ∃ p s', List.insertionSort laLE c = p :: s' := by
    cases hsort : List.insertionSort laLE c with
    | nil =>
      exfalso
      apply hne
      have := hperm
      rw [hsort] at this
      exact (List.Perm.nil_eq this).symm
    | cons p s' => exact ⟨p, s', rfl⟩
  apply List.length_filter_lt_length_iff_exists.mpr
  refine ⟨p, ?_, ?_⟩
  · have hp : p ∈ List.insertionSort laLE c := by
      rw [hs]; exact List.mem_cons_self p s'
    exact hperm.mem_iff.mp hp
  · have hv : p.1 ∈ evictVictims c := by
      have hpos : 0 < evictCount c.length := by
        unfold evictCount
        omega
      obtain ⟨m2, hm2⟩ : ∃ m2, evictCount c.length = m2 + 1 :=
        ⟨evictCount c.length - 1, by omega⟩
      unfold evictVictims
      rw [hs, hm2, List.take_succ_cons]
      exact List.mem_map_of_mem Prod.fst (List.mem_cons_self p _)
    simp [List.elem_iff, hv]

lemma evictOldestItems_lru {V : Type} (c : Cache V)
    (hnd : (c.map Prod.fst).Nodup) :
    ∀ e ∈ c, e ∉ evictOldestItems c → ∀ k ∈ evictOldestItems c,
      e.2.lastAccessed ≤ k.2.lastAccessed := by
  intro e he hnotin k hk
  have hperm : List.Perm (List.insertionSort laLE c) c := List.perm_insertionSort laLE c
  have hsorted : List.Sorted laLE (List.insertionSort laLE c) :=
    List.sorted_insertionSort laLE c
  have hek : e.1 ∈ evictVictims c := by
    by_contra hne
    exact hnotin (List.mem_filter.mpr ⟨he, by simp [List.elem_iff, hne]⟩)
  have hkmem := List.mem_filter.mp hk
  have hknot : k.1 ∉ evictVictims c := by
    have := hkmem.2
    simpa [List.elem_iff] using this
  obtain ⟨v, hv, hveq⟩ := List.mem_map.mp hek
  have hvc : v ∈ c := hperm.mem_iff.mp (List.mem_of_mem_take hv)
  have hve : v = e := eq_of_fst_eq_of_nodup hnd hvc he hveq
  have hks : k ∈ List.insertionSort laLE c := hperm.mem_iff.mpr hkmem.1
  have hksplit : k ∈ (List.insertionSort laLE c).take (evictCount c.length) ++
      (List.insertionSort laLE c).drop (evictCount c.length) := by
    rw [List.take_append_drop]
    exact hks
  have hk2 : k ∈ (List.insertionSort laLE c).drop (evictCount c.length) := by
    rcases List.mem_append.mp hksplit with h1 | h2
    · exact absurd (List.mem_map_of_mem Prod.fst h1) hknot
    · exact h2
  have hpairwise : List.Pairwise laLE
      ((List.insertionSort laLE c).take (evictCount c.length) ++
        (List.insertionSort laLE c).drop (evictCount c.length)) := by
    rw [List.take_append_drop]
    exact hsorted
  exact (List.pairwise_append.mp hpairwise).2.2 e (hve ▸ hv) k hk2

lemma evictOldestItems_length {V : Type} (c : Cache V)
    (hnd : (c.map Prod.fst).Nodup) :
    (evictOldestItems c).length + min (evictCount c.length) c.length = c.length := by
  have hperm : List.Perm (List.insertionSort laLE c) c := List.perm_insertionSort laLE c
  have hlen_s : (List.insertionSort laLE c).length = c.length := hperm.length_eq
  have hnds : ((List.insertionSort laLE c).map Prod.fst).Nodup :=
    (hperm.map Prod.fst).nodup_iff.mpr hnd
  have hfilt : (evictOldestItems c).length =
      ((List.insertionSort laLE c).filter
        (fun p => !((evictVictims c).contains p.1))).length :=
    (List.Perm.length_eq ((hperm.filter _).symm))
  have hkeysplit : ((List.insertionSort laLE c).take (evictCount c.length)).map Prod.fst ++
      ((List.insertionSort laLE c).drop (evictCount c.length)).map Prod.fst =
      (List.insertionSort laLE c).map Prod.fst := by
    rw [← List.map_append, List.take_append_drop]
  have hdisj : ∀ a ∈ (List.insertionSort laLE c).drop (evictCount c.length),
      a.1 ∉ evictVictims c := by
    intro a ha hmem
    have hnd2 := hnds
    rw [← hkeysplit] at hnd2
    rcases List.nodup_append.mp hnd2 with ⟨_, _, hdis⟩
    exact hdis hmem (List.mem_map_of_mem Prod.fst ha)
  have htake : ((List.insertionSort laLE c).take (evictCount c.length)).filter
      (fun p => !((evictVictims c).contains p.1)) = [] := by
    apply List.filter_eq_nil_iff.mpr
    intro a ha
    have : a.1 ∈ evictVictims c := List.mem_map_of_mem Prod.fst ha
    simp [List.elem_iff, this]
  have hdrop : ((List.insertionSort laLE c).drop (evictCount c.length)).filter
      (fun p => !((evictVictims c).contains p.1)) =
      (List.insertionSort laLE c).drop (evictCount c.length) := by
    apply List.filter_eq_self.mpr
    intro a ha
    simp [List.elem_iff, hdisj a ha]
  have hsplit : (List.insertionSort laLE c).filter
      (fun p => !((evictVictims c).contains p.1)) =
      ((List.insertionSort laLE c).take (evictCount c.length)).filter
        (fun p => !((evictVictims c).contains p.1)) ++
      ((List.insertionSort laLE c).drop (evictCount c.length)).filter
        (fun p => !((evictVictims c).contains p.1)) := by
    rw [← List.filter_append, List.take_append_drop]
  rw [hfilt, hsplit, htake, hdrop]
  simp only [List.nil_append, List.length_drop, hlen_s]
  omega

lemma setCache_length {V : Type} (cfg : CacheConfig) (c : Cache V) (key : String)
    (v : Option V) (now : Int) (hms : 1 ≤ cfg.maxSize) (hlen : c.length ≤ cfg.maxSize) :
    (setCache cfg c key v now).2.length ≤ cfg.maxSize := by
  by_cases hen : cfg.enabled = false
  · simp [setCache, hen, hlen]
  · cases v with
    | none => simp [setCache, hen, hlen]
    | some v =>
      have hred : (setCache cfg c key (some v) now).2 =
          mapSet (if cfg.maxSize ≤ c.length then evictOldestItems c else c) key
            { value := v, type := getCacheType key, createdAt := now,
              lastAccessed := now, expiresAt := now + getTtlMs (getCacheType key) } := by
        simp [setCache, hen]
      rw [hred]
      refine le_trans (length_mapSet_le _ _ _) ?_
      by_cases hsz : cfg.maxSize ≤ c.length
      · have hceq : c.length = cfg.maxSize := le_antisymm hlen hsz
        have hne : c ≠ [] := by
          intro h
          rw [h] at hceq
          simp at hceq
          omega
        have h1 := evictOldestItems_length_lt c hne
        rw [if_pos hsz]
        omega
      · rw [if_neg hsz]
        omega

/-- C4: `setCache` is a no-op when the cache is disabled or the value is
absent; when the entry count has reached `maxSize`, the oldest
`max(1, ⌈20%⌉)` of entries ordered by `last_accessed_at` are evicted
before the insert (exact count, and every evicted entry\'s
`last_accessed_at` is at most that of every surviving entry); consequently
the entry count never exceeds `maxSize` after an insertion into a
within-bounds cache, and in particular after any sequence of insertions
starting from the empty cache. -/
theorem C4_cache_insert_eviction {V : Type} (cfg : CacheConfig) (c : Cache V)
    (key : String) (v : Option V) (now : Int)
    (hms : 1 ≤ cfg.maxSize) (hlen : c.length ≤ cfg.maxSize)
    (hnd : (c.map Prod.fst).Nodup) :
    (cfg.enabled = false → setCache cfg c key v now = (false, c)) ∧
    (setCache cfg c key none now = (false, c)) ∧
    ((setCache cfg c key v now).2.length ≤ cfg.maxSize) ∧
    ((evictOldestItems c).length + min (evictCount c.length) c.length = c.length) ∧
    (∀ e ∈ c, e ∉ evictOldestItems c → ∀ k ∈ evictOldestItems c,
        e.2.lastAccessed ≤ k.2.lastAccessed) ∧
    (∀ ops : List (String × Option V × Int),
        (applySets cfg ops).length ≤ cfg.maxSize) := by
  refine ⟨?_, ?_, ?_, ?_, ?_, ?_⟩
  · intro h
    simp [setCache, h]
  · by_cases hen : cfg.enabled = false <;> simp [setCache, hen]
  · exact setCache_length cfg c key v now hms hlen
  · exact evictOldestItems_length c hnd
  · exact evictOldestItems_lru c hnd
  · intro ops
    induction ops with
    | nil => simp [applySets]
    | cons op t ih =>
      obtain ⟨k2, v2, t2⟩ := op
      exact setCache_length cfg (applySets cfg t) k2 v2 t2 hms ih

/-- C4 witness: inserting into a full two-entry cache with `maxSize = 2`
keeps the size within bounds, and a concrete insertion sequence never
exceeds the bound. -/
theorem C4_cache_insert_eviction_witness :
    ((setCache { enabled := true, maxSize := 2 }
        [("a", entrySample), ("b", entrySample)] "c" (some 7) 10).2.length ≤ 2) ∧
    ((applySets { enabled := true, maxSize := 2 }
        [("x", some 1, 1), ("y", some 2, 2), ("z", some 3, 3)]).length ≤ 2) :=
  ⟨(C4_cache_insert_eviction { enabled := true, maxSize := 2 }
      [("a", entrySample), ("b", entrySample)] "c" (some 7) 10
      (by decide) (by decide) (by decide)).2.2.1,
   (C4_cache_insert_eviction { enabled := true, maxSize := 2 }
      [("a", entrySample), ("b", entrySample)] "c" (some 7) 10
      (by decide) (by decide) (by decide)).2.2.2.2.2
      [("x", some 1, 1), ("y", some 2, 2), ("z", some 3, 3)]⟩

/-! ### C7: response compaction -/

lemma rlookup_map_replace_ne {β : Type} (r : List (String × β)) (k : String) (v : β)
    (k' : String) (h : k' ≠ k) :
    rlookup (r.map (fun p => if p.1 = k then (k, v) else p)) k' = rlookup r k' := by
  induction r with
  | nil => rfl
  | cons p t ih =>
    by_cases hk : p.1 = k
    · have hne : ¬(k = k') := fun he => h he.symm
      simp only [List.map_cons, hk, if_pos, ite_true, rlookup, hne, if_false, ite_false]
      exact ih
    · simp only [List.map_cons, hk, if_false, ite_false, rlookup]
      by_cases hk' : p.1 = k'
      · simp [hk']
      · simp only [hk', if_false, ite_false]
        exact ih

lemma rlookup_append_single_ne {β : Type} (r : List (String × β)) (k : String) (v : β)
    (k' : String) (h : k' ≠ k) :
    rlookup (r ++ [(k, v)]) k' = rlookup r k' := by
  induction r with
  | nil =>
    have hne : ¬(k = k') := fun he => h he.symm
    simp [rlookup, hne]
  | cons p t ih =>
    by_cases hk' : p.1 = k'
    · simp [rlookup, hk']
    · simp only [List.cons_append, rlookup, hk', if_false, ite_false]
      exact ih

lemma rlookup_rset_ne {β : Type} (r : List (String × β)) (k : String) (v : β)
    (k' : String) (h : k' ≠ k) :
    rlookup (rset r k v) k' = rlookup r k' := by
  unfold rset
  split
  · exact rlookup_map_replace_ne r k v k' h
  · exact rlookup_append_single_ne r k v k' h

lemma rset_cons_ne {β : Type} (p : String × β) (t : List (String × β))
    (k : String) (v : β) (hk : p.1 ≠ k) :
    rset (p :: t) k v = p :: rset t k v := by
  by_cases hs : (rlookup t k).isSome
  · simp [rset, rlookup, hk, hs]
  · simp [rset, rlookup, hk, hs]

lemma rlookup_rset_self {β : Type} (r : List (String × β)) (k : String) (v : β) :
    rlookup (rset r k v) k = some v := by
  induction r with
  | nil => simp [rset, rlookup]
  | cons p t ih =>
    by_cases hk : p.1 = k
    · have hsome : (rlookup (p :: t) k).isSome := by simp [rlookup, hk]
      simp [rset, hsome, rlookup, hk]
    · rw [rset_cons_ne p t k v hk]
      simpa [rlookup, hk] using ih

lemma rlookup_compactAttrs_aux {β : Type} (attrs : List (String × β)) :
    ∀ (fields : List String) (acc : List (String × β)) (f : String),
      rlookup
        (fields.foldl
          (fun acc2 g =>
            match rlookup attrs g with
            | some v => rset acc2 g v
            | none => acc2)
          acc) f =
        (if f ∈ fields ∧ (rlookup attrs f).isSome then rlookup attrs f
         else rlookup acc f) := by
  intro fields
  induction fields with
  | nil =>
    intro acc f
    simp
  | cons g gs ih =>
    intro acc f
    rw [List.foldl_cons, ih]
    by_cases hf : f = g
    · subst hf
      cases hl : rlookup attrs f with
      | none =>
        simp [hl]
      | some v =>
        by_cases hgs : f ∈ gs
        · simp [hl, hgs]
        · simp only [hgs, false_and, if_false, ite_false, hl, Option.isSome_some,
            List.mem_cons, true_or, and_true, true_and, ite_true, if_pos]
          exact rlookup_rset_self acc f v
    · cases hl : rlookup attrs g with
      | none => simp [hl, List.mem_cons, hf]
      | some v =>
        by_cases hgs : f ∈ gs ∧ (rlookup attrs f).isSome
        · simp [hl, List.mem_cons, hgs.1, hgs.2]
        · have hgs2 : ¬(f ∈ g :: gs ∧ (rlookup attrs f).isSome = true) := by
            simpa [List.mem_cons, hf] using hgs
          simp only [hl]
          rw [if_neg hgs, if_neg hgs2]
          exact rlookup_rset_ne acc g v f hf

lemma rlookup_compactAttrs {β : Type} (attrs : List (String × β))
    (fields : List String) (f : String) :
    rlookup (compactAttrs attrs fields) f =
      (if f ∈ fields then rlookup attrs f else none) := by
  unfold compactAttrs
  rw [rlookup_compactAttrs_aux attrs fields [] f]
  by_cases hmem : f ∈ fields
  · cases hl : rlookup attrs f with
    | none => simp [hmem, hl, rlookup]
    | some v => simp [hmem, hl]
  · simp [hmem, rlookup]

/-- C7: compaction preserves the item's `id` and `type` unchanged, its
projected attributes contain exactly the allow-listed fields present in
the original attributes (lookup of `f` succeeds iff `f` is allow-listed
and present, and then returns the original value); the embedding is a pure
function, so the original item is unchanged (the source builds a new
object by spread); and the result-assembly step with no compaction fields
configured passes the accumulated items through unchanged. -/
theorem C7_compaction {β : Type} (item : Item β) (fields : List String) (f : String)
    (d : List (Item β)) (inc : List Nat) (tr cm : Bool) (hint : Option String) :
    (compactItem item fields).id = item.id ∧
    (compactItem item fields).type = item.type ∧
    attrLookup (compactItem item fields) f =
      (if f ∈ fields then attrLookup item f else none) ∧
    (mkResult d inc tr cm [] hint).data = d := by
  refine ⟨?_, ?_, ?_, ?_⟩
  · cases h : item.attributes <;> simp [compactItem, h]
  · cases h : item.attributes <;> simp [compactItem, h]
  · cases h : item.attributes with
    | none => simp [compactItem, h, attrLookup]
    | some attrs =>
      simp only [compactItem, h, attrLookup, Option.bind_some]
      exact rlookup_compactAttrs attrs fields f
  · simp [mkResult]

/-! ### C10: compact default with empty field list -/

lemma fetchAllPages_ok_shape {V ι : Type} (pages : List (Page V ι))
    (opts : PaginationOptions) :
    ∀ r, fetchAllPages pages opts = .ok r →
      ∃ d inc tr, r = mkResult d inc tr (resolveCompact opts)
        (resolveCompactFields opts) opts.detailHint := by
  intro r h
  simp only [fetchAllPages] at h
  repeat' split at h
  all_goals
    first
      | exact Except.noConfusion h
      | (injection h with h2; exact ⟨_, _, _, h2.symm⟩)

/-- C10: with compact mode on (its default) and an empty compact-field
list, every successful pagination result omits the side-loaded `included`
objects entirely, its `compact` metadata flag is `false`, the detail hint
is attached whenever a (truthy) hint was supplied, and the items
themselves pass through the result-assembly step uncompacted. -/
theorem C10_compact_omits_included {V ι : Type} (pages : List (Page V ι))
    (opts : PaginationOptions)
    (hc : resolveCompact opts = true) (hf : resolveCompactFields opts = []) :
    (∀ r, fetchAllPages pages opts = .ok r →
      r.included = none ∧ r.compact = false ∧
      r.hint = (if strTruthy opts.detailHint = true then opts.detailHint else none) ∧
      r.data.length = r.fetched) ∧
    (∀ (d : List (Item V)) (inc : List ι) (tr : Bool) (hint : Option String),
      (mkResult d inc tr true [] hint).data = d) := by
  constructor
  · intro r h
    obtain ⟨d, inc, tr, rfl⟩ := fetchAllPages_ok_shape pages opts r h
    rw [hc, hf]
    by_cases hs : strTruthy opts.detailHint = true <;>
      simp [mkResult, hs]
  · intro d inc tr hint
    simp [mkResult]

/-- C10 witness: a single page with side-loaded objects `[7, 8]` and a
supplied detail hint, fetched with all-default options, yields a result
with no `included`, `compact = false`, and the hint attached. -/
theorem C10_compact_omits_included_witness :
    fetchAllPages [pageInc] { detailHint := some "use get_profile" } =
      Except.ok (mkResult [itemFix] [7, 8] false true [] (some "use get_profile")) ∧
    ((mkResult [itemFix] ([7, 8] : List Nat) false true []
        (some "use get_profile")).included = none ∧
      (mkResult [itemFix] ([7, 8] : List Nat) false true []
        (some "use get_profile")).compact = false ∧
      (mkResult [itemFix] ([7, 8] : List Nat) false true []
        (some "use get_profile")).hint =
        (if strTruthy ({ detailHint := some "use get_profile" } :
            PaginationOptions).detailHint = true then
          ({ detailHint := some "use get_profile" } : PaginationOptions).detailHint
        else none) ∧
      (mkResult [itemFix] ([7, 8] : List Nat) false true []
        (some "use get_profile")).data.length =
      (mkResult [itemFix] ([7, 8] : List Nat) false true []
        (some "use get_profile")).fetched) :=
  ⟨by decide,
   (C10_compact_omits_included [pageInc] { detailHint := some "use get_profile" }
      (by decide) (by decide)).1
      (mkResult [itemFix] [7, 8] false true [] (some "use get_profile")) (by decide)⟩

/-! ### C8: single-page mode -/

/-- C8: with `fetch_all = false` (and no compaction fields configured),
pagination returns exactly the first page's items, in order, with
`truncated = false`, regardless of `max_results` and of whether the first
page carries a next link; and the result is independent of every page
after the first (no second page is ever fetched). -/
theorem C8_single_page_mode {V ι : Type} (p : Page V ι) (rest : List (Page V ι))
    (opts : PaginationOptions)
    (hfa : opts.fetch_all = some false) (hcf : opts.compactFields = none) :
    fetchAllPages (p :: rest) opts =
      .ok (mkResult p.data p.included false (resolveCompact opts) [] opts.detailHint) ∧
    (mkResult (ι := ι) p.data p.included false (resolveCompact opts) []
        opts.detailHint).data = p.data ∧
    (∀ rest', fetchAllPages (p :: rest) opts = fetchAllPages (p :: rest') opts) := by
  have hfa2 : resolveFetchAll opts = false := by simp [resolveFetchAll, hfa]
  have hcf2 : resolveCompactFields opts = [] := by simp [resolveCompactFields, hcf]
  have key : ∀ rest0 : List (Page V ι), fetchAllPages (p :: rest0) opts =
      .ok (mkResult p.data p.included false (resolveCompact opts) [] opts.detailHint) := by
    intro rest0
    cases hn : p.next with
    | none => simp [fetchAllPages, hn, hfa2, hcf2]
    | some l => simp [fetchAllPages, hn, hfa2, hcf2]
  exact ⟨key rest, by simp [mkResult], fun rest' => (key rest).trans (key rest').symm⟩

/-- C8 witness: single-page mode on the mock 10/10/5 sequence with
`max_results = 3` returns exactly the first page's 10 items. -/
theorem C8_single_page_mode_witness :
    fetchAllPages mock3 { fetch_all := some false, max_results := some 3 } =
      Except.ok (mkResult (mkPage (List.range 10) (some .validWithCursor)).data
        (mkPage (List.range 10) (some .validWithCursor)).included false
        (resolveCompact { fetch_all := some false, max_results := some 3 }) []
        ({ fetch_all := some false, max_results := some 3 } :
          PaginationOptions).detailHint) ∧
    (mkResult (ι := Nat) (mkPage (List.range 10) (some .validWithCursor)).data
        (mkPage (List.range 10) (some .validWithCursor)).included false
        (resolveCompact { fetch_all := some false, max_results := some 3 }) []
        none).data.length = 10 :=
  ⟨(C8_single_page_mode (mkPage (List.range 10) (some .validWithCursor))
      [mkPage (List.range 10) (some .validWithCursor), mkPage (List.range 5) none]
      { fetch_all := some false, max_results := some 3 } (by decide) (by decide)).1,
   by decide⟩

/-! ### The page-fetch loop: consuming, truncating, and malformed links -/

lemma pagesData_cons {V ι : Type} (p : Page V ι) (t : List (Page V ι)) :
    pagesData (p :: t) = p.data ++ pagesData t := by
  simp [pagesData]

lemma pagesIncluded_cons {V ι : Type} (p : Page V ι) (t : List (Page V ι)) :
    pagesIncluded (p :: t) = p.included ++ pagesIncluded t := by
  simp [pagesIncluded]

lemma countItems_cons {V ι : Type} (p : Page V ι) (t : List (Page V ι)) :
    countItems (p :: t) = p.data.length + countItems t := by
  simp [countItems, pagesData_cons]

lemma countItems_nil {V ι : Type} : countItems ([] : List (Page V ι)) = 0 := rfl

lemma pagesData_nil {V ι : Type} : pagesData ([] : List (Page V ι)) = [] := rfl

lemma pagesIncluded_nil {V ι : Type} : pagesIncluded ([] : List (Page V ι)) = [] := rfl

/-- If all checks along a well-formed chain suffix stay strictly below the
cap, the loop consumes every remaining page and exits with no cursor. -/
lemma fetchLoop_consume {V ι : Type} (maxR : Int) :
    ∀ (rest : List (Page V ι)) (d : List (Item V)) (inc : List ι),
      chainB rest = true → rest ≠ [] →
      (∀ j, j < rest.length →
        (d.length : Int) + (countItems (rest.take j) : Int) < maxR) →
      fetchLoop maxR rest d inc =
        (d ++ pagesData rest, inc ++ pagesIncluded rest, false) := by
  intro rest
  induction rest with
  | nil => intro d inc _ hne _; exact absurd rfl hne
  | cons p t ih =>
    intro d inc hchain hne hlt
    have hd : (d.length : Int) < maxR := by
      have h0 := hlt 0 (by simp)
      simpa [countItems_nil] using h0
    cases t with
    | nil =>
      have hpn : p.next = none := by simpa [chainB] using hchain
      rw [fetchLoop]
      simp [hd, hpn, pagesData_cons, pagesIncluded_cons, pagesData_nil, pagesIncluded_nil]
    | cons q t2 =>
      have hchain2 : p.next = some NextLink.validWithCursor ∧ chainB (q :: t2) = true := by
        simpa [chainB] using hchain
      rw [fetchLoop]
      rw [if_pos hd]
      simp only [hchain2.1, extractCursor, if_pos, ite_true]
      rw [ih (d ++ p.data) (inc ++ p.included) hchain2.2 (by simp) ?_]
      · simp [pagesData_cons, pagesIncluded_cons, List.append_assoc]
      · intro j hj
        have hstep := hlt (j + 1) (by simpa using Nat.succ_lt_succ hj)
        rw [List.take_succ_cons, countItems_cons] at hstep
        rw [List.length_append]
        push_cast at hstep ⊢
        omega

/-- If some check along a well-formed chain suffix reaches the cap, the
loop exits at the first such page boundary, with the cursor still in
hand, having accumulated at least the cap. -/
lemma fetchLoop_trunc {V ι : Type} (maxR : Int) :
    ∀ (rest : List (Page V ι)) (d : List (Item V)) (inc : List ι),
      chainB rest = true →
      (∃ j, j < rest.length ∧
        maxR ≤ (d.length : Int) + (countItems (rest.take j) : Int)) →
      ∃ j, j ≤ rest.length ∧
        fetchLoop maxR rest d inc =
          (d ++ pagesData (rest.take j), inc ++ pagesIncluded (rest.take j), true) ∧
        maxR ≤ (d.length : Int) + (countItems (rest.take j) : Int) := by
  intro rest
  induction rest with
  | nil =>
    intro d inc _ hex
    obtain ⟨j, hj, _⟩ := hex
    exact absurd hj (by simp)
  | cons p t ih =>
    intro d inc hchain hex
    by_cases hd : (d.length : Int) < maxR
    · cases t with
      | nil =>
        exfalso
        obtain ⟨j, hj, hge⟩ := hex
        have hj0 : j = 0 := by simp at hj; omega
        subst hj0
        rw [List.take_zero, countItems_nil] at hge
        push_cast at hge
        omega
      | cons q t2 =>
        have hchain2 : p.next = some NextLink.validWithCursor ∧ chainB (q :: t2) = true := by
          simpa [chainB] using hchain
        have hex2 : ∃ j, j < (q :: t2).length ∧
            maxR ≤ ((d ++ p.data).length : Int) + (countItems ((q :: t2).take j) : Int) := by
          obtain ⟨j, hj, hge⟩ := hex
          have hj1 : 0 < j := by
            by_contra hj0
            have : j = 0 := by omega
            subst this
            rw [List.take_zero, countItems_nil] at hge
            push_cast at hge
            omega
          refine ⟨j - 1, by simp at hj ⊢; omega, ?_⟩
          obtain ⟨j2, rfl⟩ : ∃ j2, j = j2 + 1 := ⟨j - 1, by omega⟩
          rw [List.take_succ_cons, countItems_cons] at hge
          rw [List.length_append]
          push_cast at hge ⊢
          omega
        obtain ⟨j, hj, heq, hge⟩ := ih (d ++ p.data) (inc ++ p.included) hchain2.2 hex2
        refine ⟨j + 1, by simpa using Nat.succ_le_succ hj, ?_, ?_⟩
        · rw [fetchLoop]
          rw [if_pos hd]
          simp only [hchain2.1, extractCursor, if_pos, ite_true]
          rw [heq]
          simp [List.take_succ_cons, pagesData_cons, pagesIncluded_cons, List.append_assoc]
        · rw [List.take_succ_cons, countItems_cons]
          rw [List.length_append] at hge
          push_cast at hge ⊢
          omega
    · refine ⟨0, by simp, ?_, ?_⟩
      · rw [fetchLoop]
        rw [if_neg hd]
        simp [pagesData_nil, pagesIncluded_nil]
      · rw [List.take_zero, countItems_nil]
        push_cast
        omega

/-- A malformed next link ends the loop right after the page carrying it:
pages before it are consumed normally (their links are well-formed), the
page with the malformed link is consumed too, and the loop exits with no
cursor, never with an error. -/
lemma fetchLoop_malformed {V ι : Type} (maxR : Int) :
    ∀ (good : List (Page V ι)) (bad : Page V ι) (tl : List (Page V ι))
      (d : List (Item V)) (inc : List ι),
      (∀ pg ∈ good, pg.next = some NextLink.validWithCursor) →
      bad.next = some NextLink.malformed →
      (∀ j, j ≤ good.length →
        (d.length : Int) + (countItems (good.take j) : Int) < maxR) →
      fetchLoop maxR (good ++ bad :: tl) d inc =
        (d ++ pagesData good ++ bad.data, inc ++ pagesIncluded good ++ bad.included, false) := by
  intro good
  induction good with
  | nil =>
    intro bad tl d inc _ hbad hlt
    have hd : (d.length : Int) < maxR := by
      have h0 := hlt 0 (by simp)
      simpa [countItems_nil] using h0
    rw [List.nil_append, fetchLoop]
    rw [if_pos hd]
    simp [hbad, extractCursor, pagesData_nil, pagesIncluded_nil]
  | cons g gs ih =>
    intro bad tl d inc hgood hbad hlt
    have hd : (d.length : Int) < maxR := by
      have h0 := hlt 0 (by simp)
      simpa [countItems_nil] using h0
    rw [List.cons_append, fetchLoop]
    rw [if_pos hd]
    have hg : g.next = some NextLink.validWithCursor := hgood g (List.mem_cons_self g gs)
    simp only [hg, extractCursor, if_pos, ite_true]
    rw [ih bad tl (d ++ g.data) (inc ++ g.included)
      (fun pg hpg => hgood pg (List.mem_cons_of_mem g hpg)) hbad ?_]
    · simp [pagesData_cons, pagesIncluded_cons, List.append_assoc]
    · intro j hj
      have hstep := hlt (j + 1) (by simpa using Nat.succ_le_succ hj)
      rw [List.take_succ_cons, countItems_cons] at hstep
      rw [List.length_append]
      push_cast at hstep ⊢
      omega

lemma pagesData_append {V ι : Type} (l1 l2 : List (Page V ι)) :
    pagesData (l1 ++ l2) = pagesData l1 ++ pagesData l2 := by
  simp [pagesData]

/-- The multi-page path of `fetchAllPages`: when fetching all and the
first page carries a well-formed cursor link, the remaining pages are
walked by the loop and the result is assembled from its output. -/
lemma fetchAllPages_multi {V ι : Type} (p : Page V ι) (rest : List (Page V ι))
    (opts : PaginationOptions)
    (hfa : opts.fetch_all ≠ some false) (hl : p.next = some NextLink.validWithCursor) :
    fetchAllPages (p :: rest) opts =
      (if ((fetchLoop (resolveMaxResults opts) rest p.data p.included).1.length : Int) >
          resolveMaxResults opts then
        if resolveMaxResults opts < 0 then .error ()
        else .ok (mkResult
          ((fetchLoop (resolveMaxResults opts) rest p.data p.included).1.take
            (resolveMaxResults opts).toNat)
          (fetchLoop (resolveMaxResults opts) rest p.data p.included).2.1 true
          (resolveCompact opts) (resolveCompactFields opts) opts.detailHint)
      else .ok (mkResult (fetchLoop (resolveMaxResults opts) rest p.data p.included).1
        (fetchLoop (resolveMaxResults opts) rest p.data p.included).2.1
        (fetchLoop (resolveMaxResults opts) rest p.data p.included).2.2
        (resolveCompact opts) (resolveCompactFields opts) opts.detailHint)) := by
  have hfa2 : resolveFetchAll opts = true := by simp [resolveFetchAll, hfa]
  simp [fetchAllPages, hl, hfa2, extractCursor]

/-! ### C2: auto-pagination completeness and truncation -/

/-- C2 counterexample: a chained 2-page sequence of 3 + 0 items whose last
page carries no next-cursor, fetched with `max_results = 3`: the total (3)
is at most the cap and the last page has no cursor, yet the result is
`truncated = true` (the running count reached the cap exactly while the
cursor to the trailing empty page was still in hand) — refuting the
claim's `truncated = false` in this boundary case. -/
theorem C2_counterexample :
    chainB trailEmpty = true ∧
    (countItems trailEmpty : Int) ≤ resolveMaxResults { max_results := some 3 } ∧
    ∃ r, fetchAllPages trailEmpty { max_results := some 3 } = .ok r ∧
      r.data.length = 3 ∧ r.truncated = true :=
  ⟨by decide, by decide,
   ⟨mkResult ([1, 2, 3].map mkItem) [] true true [] none, by decide, by decide, by decide⟩⟩

/-- C2 (amended): over a well-formed cursor chain with `fetch_all` on (and
no compaction fields), (1) if every nonempty proper prefix of the sequence
holds strictly fewer items than the cap and the total is at most the cap,
the result contains every item in page order with `truncated = false`
(this covers the 10/10/5, cap-500 scenario; it strengthens the original
"total ≤ cap and last page cursorless" condition, which fails when the
count hits the cap exactly while a cursor to trailing empty pages
remains); and (2) on a multi-page sequence with a non-negative cap, if the
total exceeds the cap or some proper prefix reaches it, the result is the
first `max_results` items exactly, with `truncated = true`. -/
theorem C2_auto_pagination {V ι : Type} (pages : List (Page V ι))
    (opts : PaginationOptions) (hch : chainB pages = true)
    (hfa : opts.fetch_all ≠ some false) (hcf : opts.compactFields = none) :
    ((∀ j, 0 < j → j < pages.length →
        (countItems (pages.take j) : Int) < resolveMaxResults opts) →
      (countItems pages : Int) ≤ resolveMaxResults opts →
      fetchAllPages pages opts =
        .ok (mkResult (pagesData pages) (pagesIncluded pages) false
          (resolveCompact opts) [] opts.detailHint)) ∧
    (2 ≤ pages.length → 0 ≤ resolveMaxResults opts →
      (resolveMaxResults opts < (countItems pages : Int) ∨
        ∃ j, 0 < j ∧ j < pages.length ∧
          resolveMaxResults opts ≤ (countItems (pages.take j) : Int)) →
      ∃ r, fetchAllPages pages opts = .ok r ∧
        r.data = (pagesData pages).take (resolveMaxResults opts).toNat ∧
        (r.data.length : Int) = resolveMaxResults opts ∧
        r.truncated = true) := by
  have hcf2 : resolveCompactFields opts = [] := by simp [resolveCompactFields, hcf]
  have hdat : ∀ (d : List (Item V)) (inc : List ι) (tr cm : Bool) (hint : Option String),
      (mkResult d inc tr cm [] hint).data = d := by
    intro d inc tr cm hint
    simp [mkResult]
  have htru : ∀ (d : List (Item V)) (inc : List ι) (tr cm : Bool)
      (fields : List String) (hint : Option String),
      (mkResult d inc tr cm fields hint).truncated = tr := by
    intro d inc tr cm fields hint
    rfl
  constructor
  · intro hpre htot
    cases pages with
    | nil =>
      simp [fetchAllPages, emptyPage, hcf2, pagesData_nil, pagesIncluded_nil]
    | cons p t =>
      cases t with
      | nil =>
        have hpn : p.next = none := by simpa [chainB] using hch
        simp [fetchAllPages, hpn, hcf2, pagesData_cons, pagesData_nil,
          pagesIncluded_cons, pagesIncluded_nil]
      | cons q t2 =>
        have hch2 : p.next = some NextLink.validWithCursor ∧ chainB (q :: t2) = true := by
          simpa [chainB] using hch
        rw [fetchAllPages_multi p (q :: t2) opts hfa hch2.1]
        have hcons := fetchLoop_consume (resolveMaxResults opts) (q :: t2)
          p.data p.included hch2.2 (by simp) ?_
        · rw [hcons]
          dsimp only
          have hlen : (((p.data ++ pagesData (q :: t2)).length : Int)) ≤
              resolveMaxResults opts := by
            rw [countItems_cons] at htot
            rw [List.length_append]
            have hc : (pagesData (q :: t2)).length = countItems (q :: t2) := rfl
            rw [hc]
            push_cast at htot ⊢
            omega
          rw [if_neg (by omega)]
          simp [hcf2, pagesData_cons, pagesIncluded_cons]
        · intro j hj
          have hstep := hpre (j + 1) (Nat.succ_pos j) (by simpa using Nat.succ_lt_succ hj)
          rw [List.take_succ_cons, countItems_cons] at hstep
          push_cast at hstep ⊢
          omega
  · intro hlen2 hmax htr
    cases pages with
    | nil => simp at hlen2
    | cons p t =>
      cases t with
      | nil => simp at hlen2
      | cons q t2 =>
        have hch2 : p.next = some NextLink.validWithCursor ∧ chainB (q :: t2) = true := by
          simpa [chainB] using hch
        rw [fetchAllPages_multi p (q :: t2) opts hfa hch2.1]
        by_cases hex : ∃ j, 0 < j ∧ j < (p :: q :: t2).length ∧
            resolveMaxResults opts ≤ (countItems ((p :: q :: t2).take j) : Int)
        · have hex2 : ∃ j, j < (q :: t2).length ∧
              resolveMaxResults opts ≤
                ((p.data).length : Int) + (countItems ((q :: t2).take j) : Int) := by
            obtain ⟨j, hj0, hjlen, hge⟩ := hex
            obtain ⟨j2, rfl⟩ : ∃ j2, j = j2 + 1 := ⟨j - 1, by omega⟩
            rw [List.take_succ_cons, countItems_cons] at hge
            refine ⟨j2, by simpa using hjlen, ?_⟩
            push_cast at hge ⊢
            omega
          obtain ⟨j, hjle, heq, hge⟩ := fetchLoop_trunc (resolveMaxResults opts)
            (q :: t2) p.data p.included hch2.2 hex2
          rw [heq]
          dsimp only
          have hpref : (p.data ++ pagesData ((q :: t2).take j)) ++
              pagesData ((q :: t2).drop j) = pagesData (p :: q :: t2) := by
            rw [pagesData_cons, List.append_assoc, ← pagesData_append,
              List.take_append_drop]
          have hdlen : ((p.data ++ pagesData ((q :: t2).take j)).length : Int) =
              (p.data.length : Int) + (countItems ((q :: t2).take j) : Int) := by
            rw [List.length_append]
            push_cast
            rfl
          by_cases hgt : ((p.data ++ pagesData ((q :: t2).take j)).length : Int) >
              resolveMaxResults opts
          · rw [if_pos hgt, if_neg (by omega)]
            refine ⟨_, rfl, ?_, ?_, ?_⟩
            · rw [hcf2, hdat]
              have htk : (resolveMaxResults opts).toNat ≤
                  (p.data ++ pagesData ((q :: t2).take j)).length := by omega
              rw [← hpref, List.take_append_of_le_length htk]
            · rw [hcf2, hdat]
              have hlt : ((p.data ++ pagesData ((q :: t2).take j)).take
                  (resolveMaxResults opts).toNat).length =
                  (resolveMaxResults opts).toNat := by
                rw [List.length_take]
                omega
              rw [hlt]
              omega
            · rw [htru]
          · have heqlen : ((p.data ++ pagesData ((q :: t2).take j)).length : Int) =
                resolveMaxResults opts := by omega
            rw [if_neg hgt]
            refine ⟨_, rfl, ?_, ?_, ?_⟩
            · rw [hcf2, hdat]
              have htk : (resolveMaxResults opts).toNat =
                  (p.data ++ pagesData ((q :: t2).take j)).length := by omega
              rw [← hpref, htk, List.take_left]
            · rw [hcf2, hdat]
              omega
            · rw [htru]
        · have hall : ∀ j, 0 < j → j < (p :: q :: t2).length →
              (countItems ((p :: q :: t2).take j) : Int) < resolveMaxResults opts := by
            intro j hj0 hjlen
            by_contra hc
            exact hex ⟨j, hj0, hjlen, by omega⟩
          have htot2 : resolveMaxResults opts < (countItems (p :: q :: t2) : Int) := by
            rcases htr with h | h
            · exact h
            · exact absurd h hex
          have hcons := fetchLoop_consume (resolveMaxResults opts) (q :: t2)
            p.data p.included hch2.2 (by simp) ?_
          · rw [hcons]
            dsimp only
            have hdlen : ((p.data ++ pagesData (q :: t2)).length : Int) =
                (countItems (p :: q :: t2) : Int) := by
              rw [countItems_cons, List.length_append]
              push_cast
              rfl
            rw [if_pos (by omega), if_neg (by omega)]
            refine ⟨_, rfl, ?_, ?_, ?_⟩
            · rw [hcf2, hdat, ← pagesData_cons]
            · rw [hcf2, hdat]
              have hlt : ((p.data ++ pagesData (q :: t2)).take
                  (resolveMaxResults opts).toNat).length =
                  (resolveMaxResults opts).toNat := by
                rw [List.length_take]
                omega
              rw [hlt]
              omega
            · rw [htru]
          · intro j hj
            have hstep := hall (j + 1) (Nat.succ_pos j) (by simpa using Nat.succ_lt_succ hj)
            rw [List.take_succ_cons, countItems_cons] at hstep
            push_cast at hstep ⊢
            omega

/-- C2 witness: the mock 10/10/5 sequence with `max_results = 500` yields
all 25 items with `truncated = false`; with `max_results = 15` it yields
exactly the first 15 items with `truncated = true`. -/
theorem C2_auto_pagination_witness :
    (fetchAllPages mock3 ({} : PaginationOptions) =
      .ok (mkResult (pagesData mock3) (pagesIncluded mock3) false
        (resolveCompact {}) [] ({} : PaginationOptions).detailHint)) ∧
    (∃ r, fetchAllPages mock3 { max_results := some 15 } = .ok r ∧
      r.data = (pagesData mock3).take
        (resolveMaxResults { max_results := some 15 }).toNat ∧
      (r.data.length : Int) = resolveMaxResults { max_results := some 15 } ∧
      r.truncated = true) :=
  ⟨(C2_auto_pagination mock3 {} (by decide) (by decide) (by decide)).1
      (by
        intro j h1 h2
        have h3 : j < 3 := by simpa [mock3] using h2
        interval_cases j <;> decide)
      (by decide),
   (C2_auto_pagination mock3 { max_results := some 15 } (by decide) (by decide)
      (by decide)).2 (by decide) (by decide) (Or.inl (by decide))⟩

/-! ### C5: malformed next links halt pagination -/

/-- The multi-page path when the first page's next link yields no cursor
(malformed URL): the loop is never entered. -/
lemma fetchAllPages_multi_nocursor {V ι : Type} (p : Page V ι)
    (rest : List (Page V ι)) (opts : PaginationOptions)
    (hfa : opts.fetch_all ≠ some false) (hl : p.next = some NextLink.malformed) :
    fetchAllPages (p :: rest) opts =
      (if ((p.data).length : Int) > resolveMaxResults opts then
        if resolveMaxResults opts < 0 then .error ()
        else .ok (mkResult (p.data.take (resolveMaxResults opts).toNat) p.included true
          (resolveCompact opts) (resolveCompactFields opts) opts.detailHint)
      else .ok (mkResult p.data p.included false (resolveCompact opts)
        (resolveCompactFields opts) opts.detailHint)) := by
  have hfa2 : resolveFetchAll opts = true := by simp [resolveFetchAll, hfa]
  simp [fetchAllPages, hl, hfa2, extractCursor]

/-- C5: when a page's next link is malformed (and every earlier link is
well-formed, with the cap not yet reached), pagination halts after the
page that contained the malformed link, returning exactly the items
accumulated through that page, successfully (`.ok`, never an error), with
`truncated = false`. -/
theorem C5_malformed_link_halts {V ι : Type} (pref : List (Page V ι))
    (bad : Page V ι) (rest : List (Page V ι)) (opts : PaginationOptions)
    (hfa : opts.fetch_all ≠ some false) (hcf : opts.compactFields = none)
    (hpref : ∀ pg ∈ pref, pg.next = some NextLink.validWithCursor)
    (hbad : bad.next = some NextLink.malformed)
    (hpre : ∀ j, 0 < j → j ≤ pref.length →
      (countItems (pref.take j) : Int) < resolveMaxResults opts)
    (htot : (countItems pref : Int) + (bad.data.length : Int) ≤ resolveMaxResults opts) :
    fetchAllPages (pref ++ bad :: rest) opts =
      .ok (mkResult (pagesData pref ++ bad.data) (pagesIncluded pref ++ bad.included)
        false (resolveCompact opts) [] opts.detailHint) := by
  have hcf2 : resolveCompactFields opts = [] := by simp [resolveCompactFields, hcf]
  cases pref with
  | nil =>
    rw [List.nil_append, fetchAllPages_multi_nocursor bad rest opts hfa hbad]
    have hlen : ((bad.data.length : Int)) ≤ resolveMaxResults opts := by
      have := htot
      rw [countItems_nil] at this
      push_cast at this
      omega
    rw [if_neg (by omega)]
    simp [hcf2, pagesData_nil, pagesIncluded_nil]
  | cons g gs =>
    have hg : g.next = some NextLink.validWithCursor :=
      hpref g (List.mem_cons_self g gs)
    rw [List.cons_append, fetchAllPages_multi g (gs ++ bad :: rest) opts hfa hg]
    have hml := fetchLoop_malformed (resolveMaxResults opts) gs bad rest
      g.data g.included (fun pg hpg => hpref pg (List.mem_cons_of_mem g hpg)) hbad ?_
    · rw [hml]
      dsimp only
      have hlen : (((g.data ++ pagesData gs ++ bad.data).length : Int)) ≤
          resolveMaxResults opts := by
        rw [countItems_cons] at htot
        have hc : (pagesData gs).length = countItems gs := rfl
        rw [List.length_append, List.length_append, hc]
        push_cast at htot ⊢
        omega
      rw [if_neg (by omega)]
      simp [hcf2, pagesData_cons, pagesIncluded_cons, List.append_assoc]
    · intro j hj
      have hstep := hpre (j + 1) (Nat.succ_pos j) (by simpa using Nat.succ_le_succ hj)
      rw [List.take_succ_cons, countItems_cons] at hstep
      push_cast at hstep ⊢
      omega

/-- C5 witness: a 3-page sequence whose second page carries a malformed
next link, with default options: the result is the 5 items of the first
two pages, `.ok`, and the third page is never reached. -/
theorem C5_malformed_link_halts_witness :
    fetchAllPages mockBad ({} : PaginationOptions) =
      .ok (mkResult
        (pagesData [mkPage [1, 2, 3] (some .validWithCursor)] ++
          (mkPage [4, 5] (some .malformed)).data)
        (pagesIncluded [mkPage [1, 2, 3] (some .validWithCursor)] ++
          (mkPage [4, 5] (some .malformed)).included)
        false (resolveCompact {}) [] ({} : PaginationOptions).detailHint) :=
  C5_malformed_link_halts [mkPage [1, 2, 3] (some .validWithCursor)]
    (mkPage [4, 5] (some .malformed)) [mkPage [9] none] {}
    (by decide) (by decide) (by decide) (by decide)
    (by
      intro j h1 h2
      have h3 : j = 1 := by simp at h2; omega
      subst h3
      decide)
    (by decide)

/-! ### C9: zero or negative caps are not replaced by the default -/

/-- C9 counterexample: on a chained 2-page sequence, `max_results = 0`
yields an empty, truncated result, while an omitted `max_results` (the
claimed equivalent default of 500) yields all 2 items untruncated — the
engine does not treat a cap of 0 as "use default". -/
theorem C9_counterexample :
    (fetchAllPages pagesTwo { max_results := some 0 }).toOption.map
        (fun r => (r.data.length, r.truncated)) = some (0, true) ∧
    (fetchAllPages pagesTwo { max_results := none }).toOption.map
        (fun r => (r.data.length, r.truncated)) = some (2, false) ∧
    fetchAllPages pagesTwo { max_results := some 0 } ≠
      fetchAllPages pagesTwo { max_results := none } :=
  ⟨by decide, by decide, by decide⟩

/-- C9 (amended): only an absent (`null`/`undefined`) `max_results` is
replaced by the default 500 (`?? DEFAULT_MAX_RESULTS`); a cap of 0 is used
literally — on a multi-page fetch it yields an empty result marked
truncated — and a negative cap makes the multi-page path fail with the
`RangeError` from `allData.length = maxResults`. -/
theorem C9_cap_not_defaulted {V ι : Type} (p : Page V ι) (rest : List (Page V ι))
    (opts : PaginationOptions)
    (hfa : opts.fetch_all ≠ some false) (hl : p.next = some NextLink.validWithCursor) :
    (opts.max_results = some 0 →
      fetchAllPages (p :: rest) opts =
        .ok (mkResult [] p.included true (resolveCompact opts)
          (resolveCompactFields opts) opts.detailHint)) ∧
    (∀ m : Int, opts.max_results = some m → m < 0 →
      fetchAllPages (p :: rest) opts = .error ()) ∧
    (opts.max_results = none → resolveMaxResults opts = 500) := by
  refine ⟨?_, ?_, ?_⟩
  · intro h0
    have hmr : resolveMaxResults opts = 0 := by simp [resolveMaxResults, h0]
    rw [fetchAllPages_multi p rest opts hfa hl]
    have hloop : fetchLoop (resolveMaxResults opts) rest p.data p.included =
        (p.data, p.included, true) := by
      rw [fetchLoop.eq_def]
      dsimp only
      rw [if_neg (by rw [hmr]; omega)]
    rw [hloop]
    dsimp only
    by_cases hpd : p.data = []
    · rw [if_neg (by rw [hmr]; simp [hpd])]
      rw [hpd]
    · rw [if_pos (by
          rw [hmr]
          have hp2 : 0 < p.data.length := List.length_pos.mpr hpd
          push_cast
          omega),
        if_neg (by rw [hmr]; omega)]
      rw [hmr]
      simp
  · intro m hm hneg
    have hmr : resolveMaxResults opts = m := by simp [resolveMaxResults, hm]
    rw [fetchAllPages_multi p rest opts hfa hl]
    have hloop : fetchLoop (resolveMaxResults opts) rest p.data p.included =
        (p.data, p.included, true) := by
      rw [fetchLoop.eq_def]
      dsimp only
      rw [if_neg (by rw [hmr]; omega)]
    rw [hloop]
    dsimp only
    rw [if_pos (by rw [hmr]; omega), if_pos (by rw [hmr]; omega)]
  · intro hn
    simp [resolveMaxResults, hn, DEFAULT_MAX_RESULTS]

/-- C9 witness: cap 0 on the 2-page sequence yields the empty truncated
result; cap −5 fails with the array-length error; an omitted cap resolves
to 500. -/
theorem C9_cap_not_defaulted_witness :
    (fetchAllPages pagesTwo { max_results := some 0 } =
      .ok (mkResult [] (mkPage [1] (some .validWithCursor)).included true
        (resolveCompact { max_results := some 0 })
        (resolveCompactFields { max_results := some 0 })
        ({ max_results := some 0 } : PaginationOptions).detailHint)) ∧
    (fetchAllPages pagesTwo { max_results := some (-5) } = .error ()) ∧
    resolveMaxResults ({} : PaginationOptions) = 500 :=
  ⟨(C9_cap_not_defaulted (mkPage [1] (some .validWithCursor)) [mkPage [2] none]
      { max_results := some 0 } (by decide) (by decide)).1 rfl,
   (C9_cap_not_defaulted (mkPage [1] (some .validWithCursor)) [mkPage [2] none]
      { max_results := some (-5) } (by decide) (by decide)).2.1 (-5) rfl (by decide),
   (C9_cap_not_defaulted (mkPage [1] (some .validWithCursor)) [mkPage [2] none]
      ({} : PaginationOptions) (by decide) (by decide)).2.2 rfl⟩

end KMCP
